import Mathlib

/-!
Shallow embedding of the Vulkan descriptor-set manager of this repository
(the VulkanDescriptorSetManager translation unit): the fixed-capacity
DescriptorPool (Sub-Pool), the growing DescriptorInfinitePool, the per-set
DescriptorSetHistory (Binding History) and the orchestrating Impl
(Set Manager) with bind, commit, updateBuffer, updateSampler and destroySet.

Native handles (VkDescriptorSet, VkPipelineLayout, VkSampler, textures) are
modelled as natural numbers, with 0 standing for VK_NULL_HANDLE / nullptr.
A fresh native descriptor set produced by vkAllocateDescriptorSets is
modelled deterministically as base + size + 1, where base is a per-pool
field chosen by the pool's creator so that distinct pools hand out disjoint
nonzero handle ranges.
-/

namespace FilamentVk

/-- A native VkDescriptorSet handle; 0 models VK_NULL_HANDLE. -/
abbrev VkSet := Nat

/-- VulkanDescriptorSetLayout::Count: the per-kind descriptor tally
(the shape) of a layout. -/
structure DescriptorCount where
  ubo : Nat
  dynamicUbo : Nat
  sampler : Nat
  inputAttachment : Nat
deriving DecidableEq

/-- VulkanDescriptorSetLayout::Bitmask: per-kind binding-occupancy bitmasks
of a layout, the recycling key inside a Sub-Pool. -/
structure Bitmask where
  ubo : Nat
  dynamicUbo : Nat
  sampler : Nat
  inputAttachment : Nat
deriving DecidableEq

/-- Number of set bits of a natural number. -/
def popcount : Nat → Nat
  | 0 => 0
  | n + 1 => popcount ((n + 1) / 2) + (n + 1) % 2
decreasing_by exact Nat.div_lt_self (Nat.succ_pos n) (by omega)

/-- Modelled from the spec: DescriptorCount::fromLayoutBitmask is declared in
VulkanHandles.h, which is outside this excerpt; per the data model (the
resource count a layout requires) it tallies, per kind, the bindings occupied
in the bitmask. No claim depends on its exact value. -/
def DescriptorCount.fromLayoutBitmask (b : Bitmask) : DescriptorCount :=
  ⟨popcount b.ubo, popcount b.dynamicUbo, popcount b.sampler, popcount b.inputAttachment⟩

/-- The parts of VulkanDescriptorSetLayout that the pools read. -/
structure VulkanDescriptorSetLayout where
  bitmask : Bitmask
  count : DescriptorCount
deriving DecidableEq

/-- Lookup in the mUnused map (std::unordered_map find): returns the
free-list stored for the given bitmask key, if the entry exists. -/
def findUnused : List (Bitmask × List VkSet) → Bitmask → Option (List VkSet)
  | [], _ => none
  | (k, v) :: rest, key => if k = key then some v else findUnused rest key

/-- Replace the free-list stored under an existing bitmask key. -/
def setUnusedEntry : List (Bitmask × List VkSet) → Bitmask → List VkSet →
    List (Bitmask × List VkSet)
  | [], _, _ => []
  | (k, v) :: rest, key, nv =>
    if k = key then (k, nv) :: rest else (k, v) :: setUnusedEntry rest key nv

/-- push_back of a handle onto the free-list for a bitmask key, creating the
entry when absent (operator[] followed by push_back). -/
def pushUnused : List (Bitmask × List VkSet) → Bitmask → VkSet →
    List (Bitmask × List VkSet)
  | [], key, h => [(key, [h])]
  | (k, v) :: rest, key, h =>
    if k = key then (k, v ++ [h]) :: rest else (k, v) :: pushUnused rest key h

/-- DescriptorPool (Sub-Pool): a fixed-capacity arena for descriptor sets of
one resource-count shape. mCount, mCapacity, mSize, mUnusedCount and mUnused
are carried over directly; base models the supply of fresh native handles. -/
structure DescriptorPool where
  count : DescriptorCount
  capacity : Nat
  size : Nat
  unusedCount : Nat
  unused : List (Bitmask × List VkSet)
  base : Nat
deriving DecidableEq

/-- DescriptorPool constructor: empty free-lists, zero sets allocated. -/
def DescriptorPool.mk0 (count : DescriptorCount) (capacity : Nat) (base : Nat) :
    DescriptorPool :=
  ⟨count, capacity, 0, 0, [], base⟩

/-- DescriptorPool::canAllocate: shape equality against the fixed mCount. -/
def DescriptorPool.canAllocate (p : DescriptorPool) (count : DescriptorCount) : Bool :=
  count == p.count

/-- DescriptorPool::obtainSet. If the free-list entry for the layout's
bitmask exists: an empty entry yields VK_NULL_HANDLE, otherwise the back of
the list is popped and returned (mUnusedCount decremented). With no entry,
a fresh set is allocated when mSize + 1 does not exceed mCapacity (mSize
incremented), else VK_NULL_HANDLE is returned. -/
def DescriptorPool.obtainSet (p : DescriptorPool) (layout : VulkanDescriptorSetLayout) :
    VkSet × DescriptorPool :=
  match findUnused p.unused layout.bitmask with
  | some sets =>
    match sets.getLast? with
    | none => (0, p)
    | some set =>
      (set, { p with unused := setUnusedEntry p.unused layout.bitmask sets.dropLast,
                     unusedCount := p.unusedCount - 1 })
  | none =>
    if p.size + 1 > p.capacity then
      (0, p)
    else
      (p.base + p.size + 1, { p with size := p.size + 1 })

/-- DescriptorPool::recycle: push the handle onto the free-list for the
layout mask (creating the entry when needed) and bump mUnusedCount. -/
def DescriptorPool.recycle (p : DescriptorPool) (layoutMask : Bitmask) (vkSet : VkSet) :
    DescriptorPool :=
  { p with unused := pushUnused p.unused layoutMask vkSet,
           unusedCount := p.unusedCount + 1 }

/-- DescriptorInfinitePool: the ever-growing collection of Sub-Pools. -/
structure DescriptorInfinitePool where
  pools : List DescriptorPool
deriving DecidableEq

/-- EXPECTED_SET_COUNT of DescriptorInfinitePool. -/
def EXPECTED_SET_COUNT : Nat := 10

/-- Capacity growth step of DescriptorInfinitePool: std::ceil of
capacity * SET_COUNT_GROWTH_FACTOR with the growth factor 1.5; on naturals
the exact value of ceil (3 * c / 2). -/
def grownCapacity (c : Nat) : Nat := (3 * c + 1) / 2

/-- The scanning loop of DescriptorInfinitePool::obtainSet: walks the pools
in order, skipping shape-incompatible ones, returns the first successful
allocation, and otherwise accumulates the largest capacity seen among the
compatible pools (the sameTypePool variable, kept as its capacity since
only the capacity is read). The traversed pools are returned in the state
obtainSet left them in. -/
def scanObtain (layout : VulkanDescriptorSetLayout) :
    List DescriptorPool → Option Nat → VkSet × List DescriptorPool × Option Nat
  | [], best => (0, [], best)
  | p :: rest, best =>
    if p.canAllocate layout.count then
      let r := p.obtainSet layout
      if r.1 ≠ 0 then
        (r.1, r.2 :: rest, best)
      else
        let best1 := match best with
          | none => some r.2.capacity
          | some c => if c < r.2.capacity then some r.2.capacity else some c
        let rec1 := scanObtain layout rest best1
        (rec1.1, r.2 :: rec1.2.1, rec1.2.2)
    else
      let rec1 := scanObtain layout rest best
      (rec1.1, p :: rec1.2.1, rec1.2.2)

/-- Base offset for the fresh-handle supply of a newly created pool: the sum
of the capacities of the pools created before it, so handle ranges of
distinct pools are disjoint. -/
def freshBase (pools : List DescriptorPool) : Nat :=
  pools.foldl (fun a p => a + p.capacity) 0

/-- DescriptorInfinitePool::obtainSet: try every compatible pool; when all
fail, append one new pool whose capacity is the grown capacity of the
largest compatible pool (EXPECTED_SET_COUNT when none exists), shaped by
DescriptorCount::fromLayoutBitmask of the layout bitmask, and satisfy the
request from it (the source asserts the result is not VK_NULL_HANDLE). -/
def DescriptorInfinitePool.obtainSet (ip : DescriptorInfinitePool)
    (layout : VulkanDescriptorSetLayout) : VkSet × DescriptorInfinitePool :=
  let scanned := scanObtain layout ip.pools none
  if scanned.1 ≠ 0 then
    (scanned.1, ⟨scanned.2.1⟩)
  else
    let capacity := match scanned.2.2 with
      | none => EXPECTED_SET_COUNT
      | some c => grownCapacity c
    let newPool := DescriptorPool.mk0
        (DescriptorCount.fromLayoutBitmask layout.bitmask) capacity
        (freshBase scanned.2.1)
    let r := newPool.obtainSet layout
    (r.1, ⟨scanned.2.1 ++ [r.2]⟩)

/-- The loop of DescriptorInfinitePool::recycle: recycle into the first
shape-compatible pool and stop; when no pool is compatible nothing happens. -/
def scanRecycle (count : DescriptorCount) (mask : Bitmask) (h : VkSet) :
    List DescriptorPool → List DescriptorPool
  | [] => []
  | p :: rest =>
    if p.canAllocate count then p.recycle mask h :: rest
    else p :: scanRecycle count mask h rest

/-- DescriptorInfinitePool::recycle. -/
def DescriptorInfinitePool.recycle (ip : DescriptorInfinitePool)
    (count : DescriptorCount) (mask : Bitmask) (h : VkSet) : DescriptorInfinitePool :=
  ⟨scanRecycle count mask h ip.pools⟩

/-- Modelled from the spec: UNIQUE_DESCRIPTOR_SET_COUNT, the number of
shader-visible descriptor-set slots, is a backend constant defined outside
this excerpt (the spec only calls the stashed-set array fixed-size, one slot
per set index). It is fixed here at 4; no claim depends on the exact value. -/
def UNIQUE_DESCRIPTOR_SET_COUNT : Nat := 4

/-- DescriptorSetHistory (Binding History of one live descriptor set).
The field set models mSet->vkSet, the native handle of the wrapper the
history was built for (0 models the nullptr wrapper of a default-constructed
history); textures models mTextures as (texture, subresource-range) pairs.
The mLayout and mMaxIndex members are never read by the operations the
claims concern and are omitted. -/
structure DescriptorSetHistory where
  set : VkSet
  offsets : List Nat
  mask : Bitmask
  count : DescriptorCount
  written : Nat
  bound : Bool
  textures : List (Nat × Nat)
deriving DecidableEq

/-- The default (argumentless) DescriptorSetHistory constructor: all members
take their member-initializer values; mSet is nullptr. -/
def DescriptorSetHistory.defaulted : DescriptorSetHistory :=
  ⟨0, [], ⟨0, 0, 0, 0⟩, ⟨0, 0, 0, 0⟩, 0, false, []⟩

/-- The main DescriptorSetHistory constructor: mWritten = 0 and, through the
unbind call it ends with, mBound = false. -/
def DescriptorSetHistory.mkNew (mask : Bitmask) (count : DescriptorCount) (set : VkSet) :
    DescriptorSetHistory :=
  ⟨set, [], mask, count, 0, false, []⟩

/-- DescriptorSetHistory::setOffsets: replace mOffsets, force mBound false. -/
def DescriptorSetHistory.setOffsets (h : DescriptorSetHistory) (offsets : List Nat) :
    DescriptorSetHistory :=
  { h with offsets := offsets, bound := false }

/-- DescriptorSetHistory::write(binding): set the binding bit in the 64-bit
mWritten, force mBound false. -/
def DescriptorSetHistory.write (h : DescriptorSetHistory) (binding : Nat) :
    DescriptorSetHistory :=
  { h with written := (h.written ||| (1 <<< binding)) % 2 ^ 64, bound := false }

/-- DescriptorSetHistory::write(binding, range, texture): write(binding)
followed by inserting the texture bundle into mTextures. -/
def DescriptorSetHistory.writeTexture (h : DescriptorSetHistory) (binding : Nat)
    (texture : Nat) (range : Nat) : DescriptorSetHistory :=
  { h.write binding with textures := h.textures ++ [(texture, range)] }

/-- The single command-stream command the manager issues:
vkCmdBindDescriptorSets(cmdbuffer, GRAPHICS, pipelineLayout, index, 1,
mSet->vkSet, mCount.dynamicUbo, mOffsets). -/
structure Cmd where
  pipelineLayout : Nat
  firstSet : Nat
  vkSet : VkSet
  dynamicOffsetCount : Nat
  offsets : List Nat
deriving DecidableEq

/-- DescriptorSetHistory::bind: emits the vkCmdBindDescriptorSets command
built from the current history state and sets mBound true (the
resource-ownership transfer to the command buffer is not modelled). -/
def DescriptorSetHistory.bind (h : DescriptorSetHistory) (pipelineLayout : Nat)
    (index : Nat) : DescriptorSetHistory × Cmd :=
  ({ h with bound := true },
   ⟨pipelineLayout, index, h.set, h.count.dynamicUbo, h.offsets⟩)

/-- DescriptorSetHistory::unbind: mBound false (the local re-acquisition of
the set into mResources is not modelled). -/
def DescriptorSetHistory.unbind (h : DescriptorSetHistory) : DescriptorSetHistory :=
  { h with bound := false }

/-- BoundInfo: the last-committed snapshot. boundSets models the copied
mStashedSets array, read at indices below UNIQUE_DESCRIPTOR_SET_COUNT. -/
structure BoundInfo where
  pipelineLayout : Nat
  setMask : Nat
  boundSets : Nat → VkSet

/-- BoundInfo::operator==: pipeline layouts and masks equal, and the stashed
sets equal on every slot selected by the mask. -/
def BoundInfo.beq (a b : BoundInfo) : Bool :=
  a.pipelineLayout == b.pipelineLayout && a.setMask == b.setMask &&
    (List.range UNIQUE_DESCRIPTOR_SET_COUNT).all fun i =>
      !(a.setMask.testBit i) || (a.boundSets i == b.boundSets i)

/-- VulkanDescriptorSetManager::Impl (the Set Manager): mHistory as a map
from native handle to history, mStashedSets as a function read and written
at indices below UNIQUE_DESCRIPTOR_SET_COUNT, the growing pool and the
last-committed BoundInfo. -/
structure Impl where
  hist : VkSet → Option DescriptorSetHistory
  stashed : Nat → VkSet
  pool : DescriptorInfinitePool
  lastBoundInfo : BoundInfo

/-- The Impl constructor state: empty history, all stashed slots
VK_NULL_HANDLE, empty pool, value-constructed BoundInfo. -/
def Impl.start : Impl :=
  ⟨fun _ => none, fun _ => 0, ⟨[]⟩, ⟨0, 0, fun _ => 0⟩⟩

/-- The assert_invariant in Impl::bind, checked when the previously stashed
handle of the slot is not VK_NULL_HANDLE: the previous handle must be a key
of mHistory. The check runs after operator[] inserted the entry for the set
being bound, so a previous handle equal to that set always passes. -/
def Impl.bindAssertOk (s : Impl) (setIndex : Nat) (set : VkSet) : Bool :=
  s.stashed setIndex == 0 || s.stashed setIndex == set ||
    (s.hist (s.stashed setIndex)).isSome

/-- Impl::bind: operator[] fetches (default-constructing when absent) the
history of the set and stores the offsets into it (forcing unbound); then,
when the slot previously stashed a non-null handle, that handle's history is
unbound through operator[] as well; finally the slot is overwritten. The
body contains no vkCmd call, hence the empty command list. -/
def Impl.bind (s : Impl) (setIndex : Nat) (set : VkSet) (offsets : List Nat) :
    Impl × List Cmd :=
  let h1 := ((s.hist set).getD DescriptorSetHistory.defaulted).setOffsets offsets
  let hist1 : VkSet → Option DescriptorSetHistory :=
    fun v => if v = set then some h1 else s.hist v
  let lastSet := s.stashed setIndex
  let hist2 : VkSet → Option DescriptorSetHistory :=
    if lastSet ≠ 0 then
      fun v => if v = lastSet then
          some (((hist1 lastSet).getD DescriptorSetHistory.defaulted).unbind)
        else hist1 v
    else hist1
  ({ s with hist := hist2,
            stashed := fun i => if i = setIndex then set else s.stashed i }, [])

/-- Impl::updateBuffer: the vkUpdateDescriptorSets call is an immediate
descriptor write, not a command-stream command, and the descriptor-type
selection only reads the history's mask; the state effect is operator[]
(default-constructing when absent) followed by history.write(binding). -/
def Impl.updateBuffer (s : Impl) (set : VkSet) (binding : Nat) : Impl :=
  let h1 := ((s.hist set).getD DescriptorSetHistory.defaulted).write binding
  { s with hist := fun v => if v = set then some h1 else s.hist v }

/-- Impl::updateSampler: operator[] (default-constructing when absent)
followed by history.write(binding, range, texture). -/
def Impl.updateSampler (s : Impl) (set : VkSet) (binding : Nat)
    (texture : Nat) (range : Nat) : Impl :=
  let h1 := ((s.hist set).getD DescriptorSetHistory.defaulted).writeTexture
      binding texture range
  { s with hist := fun v => if v = set then some h1 else s.hist v }

/-- Impl::createSet: obtain a native set from the growing pool and emplace
a fresh history keyed by it (emplace does not overwrite an existing entry).
The wrapper construction and its destruction callback live in the external
resource allocator and are not part of this state. -/
def Impl.createSet (s : Impl) (layout : VulkanDescriptorSetLayout) : Impl :=
  let r := s.pool.obtainSet layout
  { s with pool := r.2,
           hist := fun v => if v = r.1 then
               match s.hist v with
               | some h => some h
               | none => some (DescriptorSetHistory.mkNew layout.bitmask layout.count r.1)
             else s.hist v }

/-- Impl::destroySet: erase the history keyed by the set's native handle and
clear every stashed slot holding that handle to VK_NULL_HANDLE. -/
def Impl.destroySet (s : Impl) (vkSet : VkSet) : Impl :=
  { s with hist := fun v => if v = vkSet then none else s.hist v,
           stashed := fun i =>
             if i < UNIQUE_DESCRIPTOR_SET_COUNT ∧ s.stashed i = vkSet then 0
             else s.stashed i }

/-- The first loop of Impl::commit, per slot: for an active slot whose
stashed handle has a history that is not bound, the history is recorded
(the iterators array); inactive slots, handles without history and bound
histories are skipped. -/
def Impl.needsBind (s : Impl) (setMask : Nat) (i : Nat) :
    Option DescriptorSetHistory :=
  if setMask.testBit i then
    match s.hist (s.stashed i) with
    | some h => if h.bound then none else some h
    | none => none
  else none

/-- The early-return condition of Impl::commit: every active slot is already
bound and the next BoundInfo snapshot equals the last committed one. -/
def Impl.commitSkips (s : Impl) (pipelineLayout : Nat) (setMask : Nat) : Bool :=
  ((List.range UNIQUE_DESCRIPTOR_SET_COUNT).all fun i =>
      (s.needsBind setMask i).isNone) &&
    BoundInfo.beq s.lastBoundInfo ⟨pipelineLayout, setMask, s.stashed⟩

/-- Impl::commit: when the skip condition holds, a complete no-op. Otherwise
the second loop walks the slots in increasing order and calls
DescriptorSetHistory::bind on each recorded iterator, which emits one
command per recorded slot and sets that map entry's mBound true in place
(entries reachable through several recorded slots are bound through each);
finally the snapshot is stored as mLastBoundInfo. -/
def Impl.commit (s : Impl) (pipelineLayout : Nat) (setMask : Nat) :
    Impl × List Cmd :=
  if s.commitSkips pipelineLayout setMask then
    (s, [])
  else
    let binds := (List.range UNIQUE_DESCRIPTOR_SET_COUNT).filterMap fun i =>
      (s.needsBind setMask i).map fun h => (i, h)
    let cmds := binds.map fun ih => (ih.2.bind pipelineLayout ih.1).2
    let hist1 : VkSet → Option DescriptorSetHistory := fun v =>
      match s.hist v with
      | none => none
      | some h =>
        if binds.any fun ih => s.stashed ih.1 == v then some { h with bound := true }
        else some h
    ({ s with hist := hist1,
              lastBoundInfo := ⟨pipelineLayout, setMask, s.stashed⟩ }, cmds)


-- helper lemmas

theorem BoundInfo.beq_refl (a : BoundInfo) : BoundInfo.beq a a = true := by
  simp [BoundInfo.beq]

theorem needsBind_eq_some {s : Impl} {mask i : Nat} {hh : DescriptorSetHistory} :
    s.needsBind mask i = some hh ↔
      mask.testBit i = true ∧ s.hist (s.stashed i) = some hh ∧ hh.bound = false := by
  unfold Impl.needsBind
  by_cases ht : mask.testBit i
  · cases hv : s.hist (s.stashed i) with
    | none => simp [ht, hv]
    | some h =>
      by_cases hb : h.bound = true
      · simp [ht, hv, hb]
        intro he
        rw [he] at hb
        exact hb
      · simp [ht, hv, hb]
        intro he
        rw [he] at hb
        simpa using hb
  · simp [ht]

theorem mem_commit_binds {s : Impl} {mask i : Nat} {h : DescriptorSetHistory} :
    (i, h) ∈ ((List.range UNIQUE_DESCRIPTOR_SET_COUNT).filterMap fun j =>
        (s.needsBind mask j).map fun hh => (j, hh)) ↔
      i < UNIQUE_DESCRIPTOR_SET_COUNT ∧ s.needsBind mask i = some h := by
  simp only [List.mem_filterMap, List.mem_range, Option.map_eq_some', Prod.mk.injEq]
  constructor
  · rintro ⟨a, ha, b, hb, rfl, rfl⟩
    exact ⟨ha, hb⟩
  · rintro ⟨hi, hn⟩
    exact ⟨i, hi, h, hn, rfl, rfl⟩

theorem commit_stashed (s : Impl) (pl mask : Nat) :
    ((s.commit pl mask).1).stashed = s.stashed := by
  unfold Impl.commit
  by_cases h : s.commitSkips pl mask = true <;> simp [h]

theorem commit_pool (s : Impl) (pl mask : Nat) :
    ((s.commit pl mask).1).pool = s.pool := by
  unfold Impl.commit
  by_cases h : s.commitSkips pl mask = true <;> simp [h]

theorem commit_hist_of_not_skips (s : Impl) (pl mask : Nat)
    (h : s.commitSkips pl mask = false) (v : VkSet) :
    ((s.commit pl mask).1).hist v =
      match s.hist v with
      | none => none
      | some hh =>
        if ((List.range UNIQUE_DESCRIPTOR_SET_COUNT).filterMap fun i =>
              (s.needsBind mask i).map fun h2 => (i, h2)).any fun ih =>
                s.stashed ih.1 == v
        then some { hh with bound := true } else some hh := by
  simp [Impl.commit, h]

theorem commit_lastBoundInfo_of_not_skips (s : Impl) (pl mask : Nat)
    (h : s.commitSkips pl mask = false) :
    ((s.commit pl mask).1).lastBoundInfo = ⟨pl, mask, s.stashed⟩ := by
  simp [Impl.commit, h]

theorem commit_cmds_of_not_skips (s : Impl) (pl mask : Nat)
    (h : s.commitSkips pl mask = false) :
    (s.commit pl mask).2 =
      ((List.range UNIQUE_DESCRIPTOR_SET_COUNT).filterMap fun i =>
          (s.needsBind mask i).map fun h2 => (i, h2)).map
        fun ih => (ih.2.bind pl ih.1).2 := by
  simp [Impl.commit, h]

/-- C1: a second commit with the same pipeline layout and active-slot mask,
with no operation in between, is a complete no-op: it returns the state
unchanged and issues zero bind commands. -/
theorem commit_twice_is_noop (s : Impl) (pl mask : Nat) :
    (s.commit pl mask).1.commit pl mask = ((s.commit pl mask).1, []) := by
  by_cases hsk : s.commitSkips pl mask = true
  · have h1 : s.commit pl mask = (s, []) := by simp [Impl.commit, hsk]
    rw [h1]
    simp [Impl.commit, hsk]
  · have hsk' : s.commitSkips pl mask = false := by simpa using hsk
    set s1 := (s.commit pl mask).1 with hs1
    have hall : ∀ i ∈ List.range UNIQUE_DESCRIPTOR_SET_COUNT,
        ((s1.needsBind mask i).isNone) = true := by
      intro i hi
      rw [List.mem_range] at hi
      unfold Impl.needsBind
      rw [hs1, commit_stashed, commit_hist_of_not_skips s pl mask hsk']
      by_cases ht : mask.testBit i
      · cases hv : s.hist (s.stashed i) with
        | none => simp [ht, hv]
        | some hh =>
          by_cases hflag : (((List.range UNIQUE_DESCRIPTOR_SET_COUNT).filterMap fun j =>
              (s.needsBind mask j).map fun h2 => (j, h2)).any fun ih =>
                s.stashed ih.1 == s.stashed i) = true
          · simp [ht, hv, hflag]
          · have hb : hh.bound = true := by
              by_contra hb0
              have hb0' : hh.bound = false := by simpa using hb0
              have hn : s.needsBind mask i = some hh :=
                needsBind_eq_some.mpr ⟨ht, hv, hb0'⟩
              have hmem := mem_commit_binds.mpr ⟨hi, hn⟩
              exact hflag (List.any_eq_true.mpr ⟨(i, hh), hmem, by simp⟩)
            simp [ht, hv, hflag, hb]
      · simp [ht]
    have hskip1 : s1.commitSkips pl mask = true := by
      unfold Impl.commitSkips
      rw [Bool.and_eq_true]
      constructor
      · rw [List.all_eq_true]
        exact hall
      · rw [hs1, commit_lastBoundInfo_of_not_skips s pl mask hsk', commit_stashed]
        exact BoundInfo.beq_refl _
    have hfin : s1.commit pl mask = (s1, []) := by
      unfold Impl.commit
      rw [if_pos hskip1]
    exact hfin

theorem binds_fst_sublist (f : Nat → Option DescriptorSetHistory) (l : List Nat) :
    ((l.filterMap fun i => (f i).map fun h => (i, h)).map Prod.fst).Sublist l := by
  induction l with
  | nil => simp
  | cons a t ih =>
    cases hf : f a with
    | none => simpa [List.filterMap_cons, hf] using ih.cons a
    | some h => simpa [List.filterMap_cons, hf] using ih.cons₂ a

/-- C2: a commit that is not skipped issues one bind command for exactly the
active slots whose staged set has a not-yet-bound history, issues them in
increasing slot order, and records the new snapshot as the last-committed
bind state. -/
theorem commit_binds_exactly_unbound (s : Impl) (pl mask : Nat)
    (hsk : s.commitSkips pl mask = false) :
    (∀ i : Nat, (∃ c ∈ (s.commit pl mask).2, c.firstSet = i) ↔
        (i < UNIQUE_DESCRIPTOR_SET_COUNT ∧ mask.testBit i = true ∧
          ∃ hh, s.hist (s.stashed i) = some hh ∧ hh.bound = false)) ∧
    ((s.commit pl mask).2.map Cmd.firstSet).Pairwise (· < ·) ∧
    (s.commit pl mask).1.lastBoundInfo = ⟨pl, mask, s.stashed⟩ := by
  refine ⟨?_, ?_, commit_lastBoundInfo_of_not_skips s pl mask hsk⟩
  · intro i
    rw [commit_cmds_of_not_skips s pl mask hsk]
    constructor
    · rintro ⟨c, hc, hfs⟩
      obtain ⟨⟨j, hh2⟩, hih, hceq⟩ := List.mem_map.mp hc
      obtain ⟨hj, hn⟩ := mem_commit_binds.mp hih
      obtain ⟨ht, hv, hb⟩ := needsBind_eq_some.mp hn
      have hji : j = i := by
        rw [← hfs, ← hceq]
        rfl
      subst hji
      exact ⟨hj, ht, hh2, hv, hb⟩
    · rintro ⟨hi, ht, hh, hv, hb⟩
      have hn : s.needsBind mask i = some hh := needsBind_eq_some.mpr ⟨ht, hv, hb⟩
      have hmem := mem_commit_binds.mpr ⟨hi, hn⟩
      exact ⟨(hh.bind pl i).2, List.mem_map.mpr ⟨(i, hh), hmem, rfl⟩, rfl⟩
  · rw [commit_cmds_of_not_skips s pl mask hsk]
    rw [List.map_map]
    have heq : (Cmd.firstSet ∘ fun ih : Nat × DescriptorSetHistory =>
        (ih.2.bind pl ih.1).2) = Prod.fst := rfl
    rw [heq]
    exact List.Pairwise.sublist (binds_fst_sublist (s.needsBind mask) _)
      (List.pairwise_lt_range _)

theorem needs_gives_cmd (s : Impl) (pl mask i : Nat) (hh : DescriptorSetHistory)
    (hi : i < UNIQUE_DESCRIPTOR_SET_COUNT) (hn : s.needsBind mask i = some hh) :
    ∃ c ∈ (s.commit pl mask).2, c.firstSet = i := by
  have hB : ((List.range UNIQUE_DESCRIPTOR_SET_COUNT).all fun j =>
      (s.needsBind mask j).isNone) = false := by
    by_contra hB0
    have hB1 : ((List.range UNIQUE_DESCRIPTOR_SET_COUNT).all fun j =>
        (s.needsBind mask j).isNone) = true := by
      cases hx : ((List.range UNIQUE_DESCRIPTOR_SET_COUNT).all fun j =>
          (s.needsBind mask j).isNone) with
      | false => exact absurd hx hB0
      | true => rfl
    have := List.all_eq_true.mp hB1 i (List.mem_range.mpr hi)
    rw [hn] at this
    simp at this
  have hsk : s.commitSkips pl mask = false := by
    unfold Impl.commitSkips
    rw [hB, Bool.false_and]
  rw [commit_cmds_of_not_skips s pl mask hsk]
  exact ⟨(hh.bind pl i).2,
    List.mem_map.mpr ⟨(i, hh), mem_commit_binds.mpr ⟨hi, hn⟩, rfl⟩, rfl⟩

theorem unbound_staged_gets_cmd (s : Impl) (pl mask i : Nat)
    (hh : DescriptorSetHistory) (hi : i < UNIQUE_DESCRIPTOR_SET_COUNT)
    (ht : mask.testBit i = true) (hv : s.hist (s.stashed i) = some hh)
    (hb : hh.bound = false) :
    ∃ c ∈ (s.commit pl mask).2, c.firstSet = i :=
  needs_gives_cmd s pl mask i hh hi (needsBind_eq_some.mpr ⟨ht, hv, hb⟩)

theorem updateBuffer_hist_self (s : Impl) (set : VkSet) (binding : Nat) :
    (s.updateBuffer set binding).hist set =
      some (((s.hist set).getD DescriptorSetHistory.defaulted).write binding) := by
  simp [Impl.updateBuffer]

theorem updateSampler_hist_self (s : Impl) (set : VkSet) (binding texture range : Nat) :
    (s.updateSampler set binding texture range).hist set =
      some (((s.hist set).getD DescriptorSetHistory.defaulted).writeTexture
        binding texture range) := by
  simp [Impl.updateSampler]

theorem bind_hist_self (s : Impl) (j : Nat) (set : VkSet) (offs : List Nat) :
    ∃ hh, (s.bind j set offs).1.hist set = some hh ∧
      hh.offsets = offs ∧ hh.bound = false := by
  by_cases h0 : s.stashed j = 0
  · exact ⟨((s.hist set).getD DescriptorSetHistory.defaulted).setOffsets offs,
      by simp [Impl.bind, h0], rfl, rfl⟩
  · by_cases he : set = s.stashed j
    · have he' : s.stashed j = set := he.symm
      have hset0 : ¬(set = 0) := by
        rw [he]
        exact h0
      exact ⟨(((s.hist set).getD DescriptorSetHistory.defaulted).setOffsets offs).unbind,
        by simp [Impl.bind, he', hset0], rfl, rfl⟩
    · exact ⟨((s.hist set).getD DescriptorSetHistory.defaulted).setOffsets offs,
        by simp [Impl.bind, h0, he], rfl, rfl⟩

/-- C3: updateBuffer, updateSampler and the offset replacement performed by
bind all leave the history of the touched set unbound, and a following
commit whose active mask covers the slot staging that set issues a bind
command for that slot. -/
theorem mutation_unbinds_and_forces_rebind (s : Impl) (set : VkSet)
    (binding texture range j i pl mask : Nat) (offs : List Nat)
    (hi : i < UNIQUE_DESCRIPTOR_SET_COUNT) (ht : mask.testBit i = true) :
    ((∃ hh, (s.updateBuffer set binding).hist set = some hh ∧ hh.bound = false) ∧
      ((s.updateBuffer set binding).stashed i = set →
        ∃ c ∈ ((s.updateBuffer set binding).commit pl mask).2, c.firstSet = i)) ∧
    ((∃ hh, (s.updateSampler set binding texture range).hist set = some hh ∧
        hh.bound = false) ∧
      ((s.updateSampler set binding texture range).stashed i = set →
        ∃ c ∈ ((s.updateSampler set binding texture range).commit pl mask).2,
          c.firstSet = i)) ∧
    ((∃ hh, (s.bind j set offs).1.hist set = some hh ∧ hh.bound = false) ∧
      ((s.bind j set offs).1.stashed i = set →
        ∃ c ∈ ((s.bind j set offs).1.commit pl mask).2, c.firstSet = i)) := by
  refine ⟨⟨?_, ?_⟩, ⟨?_, ?_⟩, ⟨?_, ?_⟩⟩
  · exact ⟨_, updateBuffer_hist_self s set binding, rfl⟩
  · intro hst
    exact unbound_staged_gets_cmd _ pl mask i _ hi ht
      (by rw [hst]; exact updateBuffer_hist_self s set binding) rfl
  · exact ⟨_, updateSampler_hist_self s set binding texture range, rfl⟩
  · intro hst
    exact unbound_staged_gets_cmd _ pl mask i _ hi ht
      (by rw [hst]; exact updateSampler_hist_self s set binding texture range) rfl
  · obtain ⟨hh, hsome, _, hb⟩ := bind_hist_self s j set offs
    exact ⟨hh, hsome, hb⟩
  · intro hst
    obtain ⟨hh, hsome, _, hb⟩ := bind_hist_self s j set offs
    exact unbound_staged_gets_cmd _ pl mask i hh hi ht (by rw [hst]; exact hsome) hb

theorem findUnused_setUnusedEntry (m : List (Bitmask × List VkSet)) (k : Bitmask)
    (v : List VkSet) (hs : (findUnused m k).isSome) :
    findUnused (setUnusedEntry m k v) k = some v := by
  induction m with
  | nil => simp [findUnused] at hs
  | cons a rest ih =>
    obtain ⟨ka, va⟩ := a
    by_cases hk : ka = k
    · simp [findUnused, setUnusedEntry, hk]
    · simp only [findUnused, setUnusedEntry, if_neg hk] at hs ⊢
      exact ih hs

/-- C5: the Sub-Pool allocation cases: an existing free-list entry is popped
from its most recent end, or yields a null handle when empty; with no entry
a fresh set is allocated only below capacity, incrementing the allocated
count, and at capacity a null handle is returned; the allocated count never
exceeds the fixed capacity. -/
theorem subpool_obtainSet_spec (p : DescriptorPool) (layout : VulkanDescriptorSetLayout) :
    (∀ sets, findUnused p.unused layout.bitmask = some sets →
      (sets = [] → p.obtainSet layout = (0, p)) ∧
      (∀ last, sets.getLast? = some last →
        (p.obtainSet layout).1 = last ∧
        ((p.obtainSet layout).2).size = p.size ∧
        ((p.obtainSet layout).2).capacity = p.capacity ∧
        findUnused ((p.obtainSet layout).2).unused layout.bitmask =
          some sets.dropLast)) ∧
    (findUnused p.unused layout.bitmask = none →
      (p.size < p.capacity →
        (p.obtainSet layout).1 ≠ 0 ∧ ((p.obtainSet layout).2).size = p.size + 1) ∧
      (p.capacity ≤ p.size → p.obtainSet layout = (0, p))) ∧
    (p.size ≤ p.capacity → ((p.obtainSet layout).2).size ≤ p.capacity) := by
  refine ⟨?_, ?_, ?_⟩
  · intro sets hfu
    constructor
    · intro hnil
      subst hnil
      unfold DescriptorPool.obtainSet
      rw [hfu]
      rfl
    · intro last hlast
      unfold DescriptorPool.obtainSet
      rw [hfu]
      dsimp only
      rw [hlast]
      refine ⟨rfl, rfl, rfl, ?_⟩
      exact findUnused_setUnusedEntry _ _ _ (by rw [hfu]; rfl)
  · intro hfu
    constructor
    · intro hlt
      unfold DescriptorPool.obtainSet
      rw [hfu]
      dsimp only
      rw [if_neg (by omega)]
      exact ⟨by simp, rfl⟩
    · intro hge
      unfold DescriptorPool.obtainSet
      rw [hfu]
      dsimp only
      rw [if_pos (by omega)]
  · intro hle
    unfold DescriptorPool.obtainSet
    cases hfu : findUnused p.unused layout.bitmask with
    | none =>
      dsimp only
      by_cases hc : p.size + 1 > p.capacity
      · rw [if_pos hc]
        exact hle
      · rw [if_neg hc]
        simp
        omega
    | some sets =>
      dsimp only
      cases hl : sets.getLast? with
      | none => exact hle
      | some last => exact hle

theorem findUnused_pushUnused_self (m : List (Bitmask × List VkSet)) (k : Bitmask)
    (h : VkSet) :
    findUnused (pushUnused m k h) k = some ((findUnused m k).getD [] ++ [h]) := by
  induction m with
  | nil => simp [pushUnused, findUnused]
  | cons a rest ih =>
    obtain ⟨ka, va⟩ := a
    by_cases hk : ka = k
    · simp [pushUnused, findUnused, hk]
    · simp [pushUnused, findUnused, hk, ih]

/-- C6: recycling h1 then h2 for one mask and then obtaining twice with a
layout of that mask returns h2 first and h1 second; recycling leaves the
allocated count and the capacity untouched. -/
theorem recycle_obtain_lifo (p : DescriptorPool) (mask : Bitmask) (h1 h2 : VkSet)
    (layout : VulkanDescriptorSetLayout) (hm : layout.bitmask = mask) :
    ((p.recycle mask h1).recycle mask h2).size = p.size ∧
    ((p.recycle mask h1).recycle mask h2).capacity = p.capacity ∧
    (((p.recycle mask h1).recycle mask h2).obtainSet layout).1 = h2 ∧
    (((((p.recycle mask h1).recycle mask h2).obtainSet layout).2).obtainSet
        layout).1 = h1 := by
  subst hm
  have hf2 : findUnused ((p.recycle layout.bitmask h1).recycle layout.bitmask h2).unused
      layout.bitmask =
      some (((findUnused p.unused layout.bitmask).getD [] ++ [h1]) ++ [h2]) := by
    show findUnused (pushUnused (pushUnused p.unused layout.bitmask h1)
        layout.bitmask h2) layout.bitmask = _
    rw [findUnused_pushUnused_self, findUnused_pushUnused_self]
    simp
  refine ⟨rfl, rfl, ?_, ?_⟩
  · unfold DescriptorPool.obtainSet
    rw [hf2]
    dsimp only
    rw [List.getLast?_concat]
  · unfold DescriptorPool.obtainSet
    rw [hf2]
    dsimp only
    rw [List.getLast?_concat]
    dsimp only
    have hf3 : findUnused (setUnusedEntry
        ((p.recycle layout.bitmask h1).recycle layout.bitmask h2).unused
        layout.bitmask
        (((findUnused p.unused layout.bitmask).getD [] ++ [h1]) ++ [h2]).dropLast)
        layout.bitmask =
        some ((findUnused p.unused layout.bitmask).getD [] ++ [h1]) := by
      rw [List.dropLast_concat]
      exact findUnused_setUnusedEntry _ _ _ (by rw [hf2]; rfl)
    rw [hf3]
    dsimp only
    rw [List.getLast?_concat]

theorem scanRecycle_no_match (count : DescriptorCount) (mask : Bitmask) (h : VkSet)
    (l : List DescriptorPool) (hnone : ∀ p ∈ l, p.canAllocate count = false) :
    scanRecycle count mask h l = l := by
  induction l with
  | nil => rfl
  | cons a t ih =>
    simp [scanRecycle, hnone a (List.mem_cons_self a t),
      ih fun p hp => hnone p (List.mem_cons_of_mem a hp)]

/-- C10: recycling into the growing pool with a shape no Sub-Pool matches
leaves the whole pool state unchanged; the handle is dropped. -/
theorem infinitePool_recycle_no_match (ip : DescriptorInfinitePool)
    (count : DescriptorCount) (mask : Bitmask) (h : VkSet)
    (hnone : ∀ p ∈ ip.pools, p.canAllocate count = false) :
    ip.recycle count mask h = ip := by
  unfold DescriptorInfinitePool.recycle
  rw [scanRecycle_no_match count mask h ip.pools hnone]

theorem obtainSet_capacity_count (p : DescriptorPool) (layout : VulkanDescriptorSetLayout) :
    ((p.obtainSet layout).2).capacity = p.capacity ∧
    ((p.obtainSet layout).2).count = p.count := by
  unfold DescriptorPool.obtainSet
  cases hfu : findUnused p.unused layout.bitmask with
  | some sets =>
    dsimp only
    cases sets.getLast? <;> exact ⟨rfl, rfl⟩
  | none =>
    dsimp only
    by_cases hc : p.size + 1 > p.capacity
    · rw [if_pos hc]
      exact ⟨rfl, rfl⟩
    · rw [if_neg hc]
      exact ⟨rfl, rfl⟩

theorem findUnused_mem (m : List (Bitmask × List VkSet)) (k : Bitmask)
    (v : List VkSet) (hf : findUnused m k = some v) : (k, v) ∈ m := by
  induction m with
  | nil => simp [findUnused] at hf
  | cons a rest ih =>
    obtain ⟨ka, va⟩ := a
    by_cases hk : ka = k
    · subst hk
      simp [findUnused] at hf
      subst hf
      exact List.mem_cons_self _ _
    · simp only [findUnused, if_neg hk] at hf
      exact List.mem_cons_of_mem _ (ih hf)

theorem obtainSet_fail_frame (p : DescriptorPool) (layout : VulkanDescriptorSetLayout)
    (hwf : ∀ e ∈ p.unused, (0 : VkSet) ∉ e.2)
    (h0 : (p.obtainSet layout).1 = 0) :
    (p.obtainSet layout).2 = p := by
  unfold DescriptorPool.obtainSet at h0 ⊢
  cases hfu : findUnused p.unused layout.bitmask with
  | some sets =>
    rw [hfu] at h0
    dsimp only at h0 ⊢
    cases hl : sets.getLast? with
    | none => rfl
    | some last =>
      rw [hl] at h0
      dsimp only at h0
      subst h0
      have hmem : (0 : VkSet) ∈ sets := List.mem_of_mem_getLast? hl
      exact absurd hmem (hwf (layout.bitmask, sets) (findUnused_mem _ _ _ hfu))
  | none =>
    rw [hfu] at h0
    dsimp only at h0 ⊢
    by_cases hc : p.size + 1 > p.capacity
    · rw [if_pos hc]
    · rw [if_neg hc] at h0
      simp at h0

/-- Fold step describing the sameTypePool accumulation of
DescriptorInfinitePool::obtainSet over the whole pool list: compatible
pools raise the recorded best capacity, incompatible pools are skipped. -/
def bestStep (count : DescriptorCount) (acc : Option Nat) (p : DescriptorPool) :
    Option Nat :=
  if p.canAllocate count then
    match acc with
    | none => some p.capacity
    | some c => if c < p.capacity then some p.capacity else some c
  else acc

theorem ite_lt_eq_max (a b : Nat) : (if a < b then b else a) = max a b := by
  rcases Nat.lt_or_ge a b with h | h
  · rw [if_pos h, Nat.max_eq_right (Nat.le_of_lt h)]
  · rw [if_neg (Nat.not_lt.mpr h), Nat.max_eq_left h]

theorem bestStep_false {count : DescriptorCount} {p : DescriptorPool}
    (hca : p.canAllocate count = false) (acc : Option Nat) :
    bestStep count acc p = acc := by
  simp [bestStep, hca]

theorem bestStep_true_none {count : DescriptorCount} {p : DescriptorPool}
    (hca : p.canAllocate count = true) :
    bestStep count none p = some p.capacity := by
  simp [bestStep, hca]

theorem bestStep_true_some {count : DescriptorCount} {p : DescriptorPool}
    (hca : p.canAllocate count = true) (c : Nat) :
    bestStep count (some c) p = some (max c p.capacity) := by
  by_cases h : c < p.capacity
  · simp [bestStep, hca, h, Nat.max_eq_right (Nat.le_of_lt h)]
  · simp [bestStep, hca, h, Nat.max_eq_left (Nat.not_lt.mp h)]

theorem some_ite_lt_eq_max (a b : Nat) :
    (if a < b then some b else some a) = some (max a b) := by
  by_cases h : a < b
  · simp [h, Nat.max_eq_right (Nat.le_of_lt h)]
  · simp [h, Nat.max_eq_left (Nat.not_lt.mp h)]

theorem scanObtain_all_fail (layout : VulkanDescriptorSetLayout)
    (l : List DescriptorPool) (acc : Option Nat)
    (hwf : ∀ p ∈ l, ∀ e ∈ p.unused, (0 : VkSet) ∉ e.2)
    (hfail : ∀ p ∈ l, p.canAllocate layout.count = true → (p.obtainSet layout).1 = 0) :
    scanObtain layout l acc = (0, l, l.foldl (bestStep layout.count) acc) := by
  induction l generalizing acc with
  | nil => rfl
  | cons p t ih =>
    have hwt : ∀ q ∈ t, ∀ e ∈ q.unused, (0 : VkSet) ∉ e.2 :=
      fun q hq => hwf q (List.mem_cons_of_mem p hq)
    have hft : ∀ q ∈ t, q.canAllocate layout.count = true → (q.obtainSet layout).1 = 0 :=
      fun q hq => hfail q (List.mem_cons_of_mem p hq)
    by_cases hca : p.canAllocate layout.count = true
    · have h0 : (p.obtainSet layout).1 = 0 := hfail p (List.mem_cons_self p t) hca
      have hfr : (p.obtainSet layout).2 = p :=
        obtainSet_fail_frame p layout (hwf p (List.mem_cons_self p t)) h0
      cases acc with
      | none =>
        have hrec := ih (some p.capacity) hwt hft
        simp [scanObtain, hca, h0, hfr, hrec, bestStep_true_none hca]
      | some c =>
        have hrec := ih (some (max c p.capacity)) hwt hft
        simp [scanObtain, hca, h0, hfr, some_ite_lt_eq_max, hrec,
          bestStep_true_some hca]
    · have hca' : p.canAllocate layout.count = false := by
        cases hx : p.canAllocate layout.count
        · rfl
        · exact absurd hx hca
      have hrec := ih acc hwt hft
      simp [scanObtain, hca', hrec, bestStep_false hca']

theorem foldl_bestStep_none (count : DescriptorCount) (l : List DescriptorPool)
    (acc : Option Nat) (hr : l.foldl (bestStep count) acc = none) :
    acc = none ∧ ∀ p ∈ l, p.canAllocate count = false := by
  induction l generalizing acc with
  | nil => exact ⟨hr, by simp⟩
  | cons p t ih =>
    rw [List.foldl_cons] at hr
    obtain ⟨hstep, ht⟩ := ih (bestStep count acc p) hr
    have hca : p.canAllocate count = false := by
      by_contra hca0
      have hca1 : p.canAllocate count = true := by
        cases hx : p.canAllocate count
        · exact absurd hx hca0
        · rfl
      cases acc with
      | none => rw [bestStep_true_none hca1] at hstep; exact Option.noConfusion hstep
      | some c => rw [bestStep_true_some hca1] at hstep; exact Option.noConfusion hstep
    rw [bestStep_false hca] at hstep
    refine ⟨hstep, ?_⟩
    intro q hq
    rcases List.mem_cons.mp hq with rfl | hq2
    · exact hca
    · exact ht q hq2

theorem foldl_bestStep_some (count : DescriptorCount) (l : List DescriptorPool)
    (acc : Option Nat) (c : Nat) (hr : l.foldl (bestStep count) acc = some c) :
    (acc = some c ∨ ∃ p ∈ l, p.canAllocate count = true ∧ p.capacity = c) ∧
    (∀ p ∈ l, p.canAllocate count = true → p.capacity ≤ c) ∧
    (∀ c0, acc = some c0 → c0 ≤ c) := by
  induction l generalizing acc with
  | nil =>
    rw [List.foldl_nil] at hr
    refine ⟨Or.inl hr, by simp, ?_⟩
    intro c0 h0
    rw [h0] at hr
    injection hr with h
    omega
  | cons p t ih =>
    rw [List.foldl_cons] at hr
    obtain ⟨hsrc, hbound, hmono⟩ := ih (bestStep count acc p) hr
    by_cases hca : p.canAllocate count = true
    · cases hacc : acc with
      | none =>
        rw [hacc, bestStep_true_none hca] at hsrc hmono
        refine ⟨Or.inr ?_, ?_, ?_⟩
        · rcases hsrc with h1 | ⟨q, hq, hqa, hqc⟩
          · injection h1 with h1e
            exact ⟨p, List.mem_cons_self p t, hca, h1e⟩
          · exact ⟨q, List.mem_cons_of_mem p hq, hqa, hqc⟩
        · intro q hq hqa
          rcases List.mem_cons.mp hq with rfl | hq2
          · exact hmono q.capacity rfl
          · exact hbound q hq2 hqa
        · intro c0 h0
          exact Option.noConfusion h0
      | some c1 =>
        rw [hacc, bestStep_true_some hca] at hsrc hmono
        have hmaxle : max c1 p.capacity ≤ c := hmono (max c1 p.capacity) rfl
        refine ⟨?_, ?_, ?_⟩
        · rcases hsrc with h1 | ⟨q, hq, hqa, hqc⟩
          · injection h1 with h1e
            by_cases hcc : p.capacity ≤ c1
            · left
              rw [← h1e, Nat.max_eq_left hcc]
            · right
              refine ⟨p, List.mem_cons_self p t, hca, ?_⟩
              rw [← h1e, Nat.max_eq_right (Nat.le_of_not_le hcc)]
          · exact Or.inr ⟨q, List.mem_cons_of_mem p hq, hqa, hqc⟩
        · intro q hq hqa
          rcases List.mem_cons.mp hq with rfl | hq2
          · have : q.capacity ≤ max c1 q.capacity := Nat.le_max_right _ _
            omega
          · exact hbound q hq2 hqa
        · intro c0 h0
          injection h0 with he
          exact he ▸ Nat.le_trans (Nat.le_max_left c1 p.capacity) hmaxle
    · have hca' : p.canAllocate count = false := by
        cases hx : p.canAllocate count
        · rfl
        · exact absurd hx hca
      rw [bestStep_false hca'] at hsrc hmono
      refine ⟨?_, ?_, hmono⟩
      · rcases hsrc with h1 | ⟨q, hq, hqa, hqc⟩
        · exact Or.inl h1
        · exact Or.inr ⟨q, List.mem_cons_of_mem p hq, hqa, hqc⟩
      · intro q hq hqa
        rcases List.mem_cons.mp hq with rfl | hq2
        · rw [hqa] at hca'
          exact Bool.noConfusion hca'
        · exact hbound q hq2 hqa

theorem mk0_obtainSet (cnt : DescriptorCount) (cap base : Nat)
    (layout : VulkanDescriptorSetLayout) (hc : 1 ≤ cap) :
    (DescriptorPool.mk0 cnt cap base).obtainSet layout =
      (base + 1, ⟨cnt, cap, 1, 0, [], base⟩) := by
  unfold DescriptorPool.obtainSet DescriptorPool.mk0
  dsimp only [findUnused]
  rw [if_neg (by omega)]

/-- C4: when every existing compatible Sub-Pool fails the allocation, the
growing pool appends exactly one new Sub-Pool — of capacity
ceil(1.5 x the largest compatible capacity) when a compatible pool exists
and EXPECTED_SET_COUNT otherwise — and satisfies the triggering request
from it with a non-null handle. -/
theorem infinitePool_growth (ip : DescriptorInfinitePool)
    (layout : VulkanDescriptorSetLayout)
    (hwf : ∀ p ∈ ip.pools, ∀ e ∈ p.unused, (0 : VkSet) ∉ e.2)
    (hfail : ∀ p ∈ ip.pools, p.canAllocate layout.count = true →
      (p.obtainSet layout).1 = 0)
    (hcap : ∀ p ∈ ip.pools, 1 ≤ p.capacity) :
    (ip.obtainSet layout).1 ≠ 0 ∧
    ∃ newPool,
      ((ip.obtainSet layout).2).pools = ip.pools ++ [newPool] ∧
      newPool.size = 1 ∧
      newPool.count = DescriptorCount.fromLayoutBitmask layout.bitmask ∧
      ((∀ p ∈ ip.pools, p.canAllocate layout.count = false) →
        newPool.capacity = EXPECTED_SET_COUNT) ∧
      ((∃ p ∈ ip.pools, p.canAllocate layout.count = true) →
        ∃ c, (∃ p ∈ ip.pools, p.canAllocate layout.count = true ∧ p.capacity = c) ∧
          (∀ p ∈ ip.pools, p.canAllocate layout.count = true → p.capacity ≤ c) ∧
          newPool.capacity = grownCapacity c) := by
  have hscan := scanObtain_all_fail layout ip.pools none hwf hfail
  unfold DescriptorInfinitePool.obtainSet
  rw [hscan]
  dsimp only
  rw [if_neg (by simp)]
  cases hbest : ip.pools.foldl (bestStep layout.count) none with
  | none =>
    dsimp only
    rw [mk0_obtainSet _ EXPECTED_SET_COUNT _ layout (by decide)]
    dsimp only
    refine ⟨by simp, ⟨_, rfl, rfl, rfl, fun _ => rfl, ?_⟩⟩
    rintro ⟨q, hq, hqa⟩
    have hq0 := (foldl_bestStep_none _ _ _ hbest).2 q hq
    rw [hqa] at hq0
    exact Bool.noConfusion hq0
  | some c =>
    obtain ⟨hsrc, hbound, _⟩ := foldl_bestStep_some layout.count ip.pools none c hbest
    rcases hsrc with h1 | ⟨q, hq, hqa, hqc⟩
    · exact absurd h1 (by simp)
    have hc1 : 1 ≤ c := hqc ▸ hcap q hq
    dsimp only
    rw [mk0_obtainSet _ (grownCapacity c) _ layout
      (by simp only [grownCapacity]; omega)]
    dsimp only
    refine ⟨by simp, ⟨_, rfl, rfl, rfl, ?_, ?_⟩⟩
    · intro hall
      rw [hall q hq] at hqa
      exact Bool.noConfusion hqa
    · intro _
      exact ⟨c, ⟨q, hq, hqa, hqc⟩, hbound, rfl⟩

/-- C7: bind stores the offsets into the staged set's history forcing it
unbound, issues no command, overwrites only the targeted stashed slot, and
touches another set's history exactly when the slot previously held a
different non-null set, whose history it marks unbound. -/
theorem bind_stages_without_commands (s : Impl) (idx : Nat) (set : VkSet)
    (offs : List Nat) :
    (s.bind idx set offs).2 = [] ∧
    (∃ hh, (s.bind idx set offs).1.hist set = some hh ∧
      hh.offsets = offs ∧ hh.bound = false) ∧
    (s.bind idx set offs).1.stashed idx = set ∧
    (∀ j, j ≠ idx → (s.bind idx set offs).1.stashed j = s.stashed j) ∧
    (∀ v, v ≠ set → v ≠ s.stashed idx →
      (s.bind idx set offs).1.hist v = s.hist v) ∧
    ((s.stashed idx = 0 ∨ s.stashed idx = set) →
      ∀ v, v ≠ set → (s.bind idx set offs).1.hist v = s.hist v) ∧
    (s.stashed idx ≠ 0 → s.stashed idx ≠ set →
      (s.bind idx set offs).1.hist (s.stashed idx) =
        some (((s.hist (s.stashed idx)).getD
          DescriptorSetHistory.defaulted).unbind)) := by
  refine ⟨rfl, bind_hist_self s idx set offs, ?_, ?_, ?_, ?_, ?_⟩
  · simp [Impl.bind]
  · intro j hj
    simp [Impl.bind, hj]
  · intro v hvs hvp
    by_cases h0 : s.stashed idx = 0
    · simp [Impl.bind, h0, hvs]
    · simp [Impl.bind, h0, hvs, hvp]
  · rintro (h0 | h0) v hvs
    · simp [Impl.bind, h0, hvs]
    · by_cases hz : s.stashed idx = 0
      · simp [Impl.bind, hz, hvs]
      · have hvp : v ≠ s.stashed idx := by
          rw [h0]
          exact hvs
        simp [Impl.bind, hz, hvs, hvp]
  · intro h0 hne
    have hsymm : s.stashed idx ≠ set := hne
    simp [Impl.bind, h0, hsymm]

/-- C8: destroySet erases exactly the destroyed handle's history, clears
exactly the stashed slots holding it, leaves the pool and the last-committed
snapshot untouched, and a subsequent commit issues no bind command that
names the destroyed handle. -/
theorem destroySet_frame_and_commit (s : Impl) (d : VkSet) (pl mask : Nat)
    (halias : ∀ v hh, s.hist v = some hh → hh.set = d → v = d) :
    (s.destroySet d).hist d = none ∧
    (∀ v, v ≠ d → (s.destroySet d).hist v = s.hist v) ∧
    (∀ i, i < UNIQUE_DESCRIPTOR_SET_COUNT →
      (s.destroySet d).stashed i = if s.stashed i = d then 0 else s.stashed i) ∧
    (s.destroySet d).pool = s.pool ∧
    (s.destroySet d).lastBoundInfo = s.lastBoundInfo ∧
    (∀ c ∈ ((s.destroySet d).commit pl mask).2, c.vkSet ≠ d) := by
  refine ⟨by simp [Impl.destroySet], ?_, ?_, rfl, rfl, ?_⟩
  · intro v hv
    simp [Impl.destroySet, hv]
  · intro i hi
    by_cases hsd : s.stashed i = d
    · simp [Impl.destroySet, hi, hsd]
    · simp [Impl.destroySet, hsd]
  · intro c hc
    by_cases hsk : (s.destroySet d).commitSkips pl mask = true
    · have hnil : ((s.destroySet d).commit pl mask).2 = [] := by
        simp [Impl.commit, hsk]
      rw [hnil] at hc
      exact absurd hc (List.not_mem_nil c)
    · have hsk' : (s.destroySet d).commitSkips pl mask = false := by simpa using hsk
      rw [commit_cmds_of_not_skips _ pl mask hsk'] at hc
      obtain ⟨⟨i, hh⟩, hmem, hceq⟩ := List.mem_map.mp hc
      obtain ⟨hi, hn⟩ := mem_commit_binds.mp hmem
      obtain ⟨ht, hv, hb⟩ := needsBind_eq_some.mp hn
      have hcv : c.vkSet = hh.set := by
        rw [← hceq]
        rfl
      intro hcd
      rw [hcv] at hcd
      have hv' : (if (s.destroySet d).stashed i = d then none
          else s.hist ((s.destroySet d).stashed i)) = some hh := hv
      by_cases hvd : (s.destroySet d).stashed i = d
      · rw [if_pos hvd] at hv'
        exact Option.noConfusion hv'
      · rw [if_neg hvd] at hv'
        exact hvd (halias _ hh hv' hcd)

/-- C9 (counterexample): from the empty manager state, binding the untracked
handle 5 to slot 0 passes the only assertion in bind and silently creates a
default history for the handle; updateBuffer and updateSampler on the
untracked handle proceed the same way, so no assertion failure occurs. -/
theorem untracked_bind_does_not_assert :
    Impl.start.hist 5 = none ∧
    Impl.bindAssertOk Impl.start 0 5 = true ∧
    ((Impl.start.bind 0 5 []).1.hist 5).isSome = true ∧
    ((Impl.start.updateBuffer 5 0).hist 5).isSome = true ∧
    ((Impl.start.updateSampler 5 0 7 1).hist 5).isSome = true := by
  decide

/-- C9 (amended): operating on a handle with no tracked history does not
assert on that handle: bind, updateBuffer and updateSampler default-construct
a history for it through operator[] and proceed; the assertion in bind fails
exactly when the slot's previously stashed handle is non-null, different
from the handle being bound, and itself untracked. -/
theorem untracked_handle_ops_proceed (s : Impl) (idx : Nat) (set : VkSet)
    (b t r : Nat) (offs : List Nat) (hset : s.hist set = none) :
    ((s.bind idx set offs).1.hist set).isSome = true ∧
    (s.updateBuffer set b).hist set =
      some (DescriptorSetHistory.defaulted.write b) ∧
    ((s.updateSampler set b t r).hist set).isSome = true ∧
    (Impl.bindAssertOk s idx set = false ↔
      (s.stashed idx ≠ 0 ∧ s.stashed idx ≠ set ∧ s.hist (s.stashed idx) = none)) := by
  refine ⟨?_, ?_, ?_, ?_⟩
  · obtain ⟨hh, hsome, _, _⟩ := bind_hist_self s idx set offs
    rw [hsome]
    rfl
  · rw [updateBuffer_hist_self, hset]
    rfl
  · rw [updateSampler_hist_self]
    rfl
  · unfold Impl.bindAssertOk
    cases hx : s.hist (s.stashed idx) with
    | none => simp [hx]
    | some hh => simp [hx]

/-- Concrete manager state for the witnesses: handle 5 has a fresh history
and is staged at slot 0. -/
def witnessState : Impl :=
  { Impl.start with
    hist := fun v => if v = 5 then
        some (DescriptorSetHistory.mkNew ⟨1, 0, 0, 0⟩ ⟨1, 0, 0, 0⟩ 5) else none,
    stashed := fun i => if i = 0 then 5 else 0 }

/-- Concrete layout for the pool witnesses. -/
def witnessLayout : VulkanDescriptorSetLayout := ⟨⟨1, 0, 0, 0⟩, ⟨1, 0, 0, 0⟩⟩

/-- Concrete exhausted Sub-Pool: capacity 2, both sets allocated, empty
free-lists. -/
def witnessPool : DescriptorPool := ⟨⟨1, 0, 0, 0⟩, 2, 2, 0, [], 0⟩

/-- Concrete growing pool holding only the exhausted Sub-Pool. -/
def witnessInfinitePool : DescriptorInfinitePool := ⟨[witnessPool]⟩

/-- Witness for C2 at a concrete non-skipped commit. -/
theorem commit_binds_exactly_unbound_witness :
    Impl.commitSkips witnessState 3 1 = false ∧
    ((∀ i : Nat, (∃ c ∈ (witnessState.commit 3 1).2, c.firstSet = i) ↔
        (i < UNIQUE_DESCRIPTOR_SET_COUNT ∧ Nat.testBit 1 i = true ∧
          ∃ hh, witnessState.hist (witnessState.stashed i) = some hh ∧
            hh.bound = false)) ∧
      ((witnessState.commit 3 1).2.map Cmd.firstSet).Pairwise (· < ·) ∧
      (witnessState.commit 3 1).1.lastBoundInfo = ⟨3, 1, witnessState.stashed⟩) :=
  ⟨by decide, commit_binds_exactly_unbound witnessState 3 1 (by decide)⟩

/-- Witness for C3 at concrete arguments. -/
theorem mutation_unbinds_and_forces_rebind_witness :
    0 < UNIQUE_DESCRIPTOR_SET_COUNT ∧ Nat.testBit 1 0 = true ∧
    (((∃ hh, (witnessState.updateBuffer 5 0).hist 5 = some hh ∧ hh.bound = false) ∧
      ((witnessState.updateBuffer 5 0).stashed 0 = 5 →
        ∃ c ∈ ((witnessState.updateBuffer 5 0).commit 3 1).2, c.firstSet = 0)) ∧
    ((∃ hh, (witnessState.updateSampler 5 0 7 1).hist 5 = some hh ∧
        hh.bound = false) ∧
      ((witnessState.updateSampler 5 0 7 1).stashed 0 = 5 →
        ∃ c ∈ ((witnessState.updateSampler 5 0 7 1).commit 3 1).2,
          c.firstSet = 0)) ∧
    ((∃ hh, (witnessState.bind 0 5 []).1.hist 5 = some hh ∧ hh.bound = false) ∧
      ((witnessState.bind 0 5 []).1.stashed 0 = 5 →
        ∃ c ∈ ((witnessState.bind 0 5 []).1.commit 3 1).2, c.firstSet = 0))) :=
  ⟨by decide, by decide,
    mutation_unbinds_and_forces_rebind witnessState 5 0 7 1 0 0 3 1 []
      (by decide) (by decide)⟩

/-- Witness for C4 at a concrete exhausted pool: the single compatible pool
of capacity 2 is full, so a pool of capacity grownCapacity 2 = 3 is created
and satisfies the request. -/
theorem infinitePool_growth_witness :
    (∀ p ∈ witnessInfinitePool.pools, ∀ e ∈ p.unused, (0 : VkSet) ∉ e.2) ∧
    (∀ p ∈ witnessInfinitePool.pools, p.canAllocate witnessLayout.count = true →
      (p.obtainSet witnessLayout).1 = 0) ∧
    (∀ p ∈ witnessInfinitePool.pools, 1 ≤ p.capacity) ∧
    ((witnessInfinitePool.obtainSet witnessLayout).1 ≠ 0 ∧
    ∃ newPool,
      ((witnessInfinitePool.obtainSet witnessLayout).2).pools =
        witnessInfinitePool.pools ++ [newPool] ∧
      newPool.size = 1 ∧
      newPool.count = DescriptorCount.fromLayoutBitmask witnessLayout.bitmask ∧
      ((∀ p ∈ witnessInfinitePool.pools,
          p.canAllocate witnessLayout.count = false) →
        newPool.capacity = EXPECTED_SET_COUNT) ∧
      ((∃ p ∈ witnessInfinitePool.pools,
          p.canAllocate witnessLayout.count = true) →
        ∃ c, (∃ p ∈ witnessInfinitePool.pools,
            p.canAllocate witnessLayout.count = true ∧ p.capacity = c) ∧
          (∀ p ∈ witnessInfinitePool.pools,
            p.canAllocate witnessLayout.count = true → p.capacity ≤ c) ∧
          newPool.capacity = grownCapacity c)) :=
  ⟨by decide, by decide, by decide,
    infinitePool_growth witnessInfinitePool witnessLayout
      (by decide) (by decide) (by decide)⟩

/-- Witness for C6 at a concrete pool and mask. -/
theorem recycle_obtain_lifo_witness :
    witnessLayout.bitmask = (⟨1, 0, 0, 0⟩ : Bitmask) ∧
    (((witnessPool.recycle ⟨1, 0, 0, 0⟩ 7).recycle ⟨1, 0, 0, 0⟩ 9).size =
        witnessPool.size ∧
      ((witnessPool.recycle ⟨1, 0, 0, 0⟩ 7).recycle ⟨1, 0, 0, 0⟩ 9).capacity =
        witnessPool.capacity ∧
      (((witnessPool.recycle ⟨1, 0, 0, 0⟩ 7).recycle ⟨1, 0, 0, 0⟩ 9).obtainSet
          witnessLayout).1 = 9 ∧
      ((((witnessPool.recycle ⟨1, 0, 0, 0⟩ 7).recycle ⟨1, 0, 0, 0⟩
          9).obtainSet witnessLayout).2.obtainSet witnessLayout).1 = 7) :=
  ⟨by decide, recycle_obtain_lifo witnessPool ⟨1, 0, 0, 0⟩ 7 9 witnessLayout
    (by decide)⟩

/-- Witness for C8 at a concrete state staging handle 5. -/
theorem destroySet_frame_and_commit_witness :
    (∀ v hh, witnessState.hist v = some hh → hh.set = 5 → v = 5) ∧
    ((witnessState.destroySet 5).hist 5 = none ∧
    (∀ v, v ≠ 5 → (witnessState.destroySet 5).hist v = witnessState.hist v) ∧
    (∀ i, i < UNIQUE_DESCRIPTOR_SET_COUNT →
      (witnessState.destroySet 5).stashed i =
        if witnessState.stashed i = 5 then 0 else witnessState.stashed i) ∧
    (witnessState.destroySet 5).pool = witnessState.pool ∧
    (witnessState.destroySet 5).lastBoundInfo = witnessState.lastBoundInfo ∧
    (∀ c ∈ ((witnessState.destroySet 5).commit 3 1).2, c.vkSet ≠ 5)) := by
  have ha : ∀ v hh, witnessState.hist v = some hh → hh.set = 5 → v = 5 := by
    intro v hh hv _
    by_cases h5 : v = 5
    · exact h5
    · simp [witnessState, h5] at hv
  exact ⟨ha, destroySet_frame_and_commit witnessState 5 3 1 ha⟩

/-- Witness for the amended C9 at the empty state and untracked handle 6. -/
theorem untracked_handle_ops_proceed_witness :
    Impl.start.hist 6 = none ∧
    (((Impl.start.bind 0 6 []).1.hist 6).isSome = true ∧
    (Impl.start.updateBuffer 6 1).hist 6 =
      some (DescriptorSetHistory.defaulted.write 1) ∧
    ((Impl.start.updateSampler 6 1 7 2).hist 6).isSome = true ∧
    (Impl.bindAssertOk Impl.start 0 6 = false ↔
      (Impl.start.stashed 0 ≠ 0 ∧ Impl.start.stashed 0 ≠ 6 ∧
        Impl.start.hist (Impl.start.stashed 0) = none))) :=
  ⟨rfl, untracked_handle_ops_proceed Impl.start 0 6 1 7 2 [] rfl⟩

/-- Witness for C10 at a concrete pool and a shape no Sub-Pool matches. -/
theorem infinitePool_recycle_no_match_witness :
    (∀ p ∈ witnessInfinitePool.pools,
      p.canAllocate ⟨0, 1, 0, 0⟩ = false) ∧
    witnessInfinitePool.recycle ⟨0, 1, 0, 0⟩ ⟨1, 0, 0, 0⟩ 9 =
      witnessInfinitePool :=
  ⟨by decide, infinitePool_recycle_no_match witnessInfinitePool
    ⟨0, 1, 0, 0⟩ ⟨1, 0, 0, 0⟩ 9 (by decide)⟩

end FilamentVk
